import Mathlib

/-!
Shallow embedding of the `backtest-engine` crate (Rust) for checking its
natural-language specification.  The crate's `f64` prices, quantities and fees
are modelled as rationals (`ℚ`); timestamps (`chrono::DateTime<Utc>`) as `Int`
instants; Rust `HashMap`s as association lists whose list order stands for the
map's (unspecified) iteration order; the process-wide random source
(`rand::thread_rng`) as an explicit stream `List ℚ` of drawn values that is
consumed exactly where the source draws.  Fallible operations return `Option`.
-/

namespace Backtest

/-- Modelled from the spec: the `events` module is declared in `lib.rs`
(`pub mod events;`) but `events.rs` is not among the sources; `Bar` follows the
spec's data model: `(timestamp, open, high, low, close, volume)`. -/
structure Bar where
  timestamp : Int
  op : ℚ
  high : ℚ
  low : ℚ
  close : ℚ
  volume : ℚ

/-- Modelled from the spec: `Side`: `Buy | Sell`. -/
inductive Side where
  | Buy : Side
  | Sell : Side
deriving DecidableEq

/-- Modelled from the spec: `OrderType`: `Market | Limit | Stop | StopLimit`. -/
inductive OrderType where
  | Market : OrderType
  | Limit : OrderType
  | Stop : OrderType
  | StopLimit : OrderType
deriving DecidableEq

/-- Modelled from the spec: `OrderStatus` state machine
`Submitted → Pending → {Filled | Cancelled | Rejected}`. -/
inductive OrderStatus where
  | Submitted : OrderStatus
  | Pending : OrderStatus
  | Filled : OrderStatus
  | Cancelled : OrderStatus
  | Rejected : OrderStatus
deriving DecidableEq

/-- Modelled from the spec: `Order`: `(id, created_at, symbol, side, order_type,
quantity, limit_price?, stop_price?, status)`. -/
structure OrderEvent where
  id : Nat
  timestamp : Int
  symbol : String
  side : Side
  order_type : OrderType
  quantity : ℚ
  limit_price : Option ℚ
  stop_price : Option ℚ
  status : OrderStatus

/-- Modelled from the spec: `OrderEvent::market` constructor used by
`OrderManager::create_market_order` — a market order carries no limit or stop
price and starts `Submitted`. -/
def OrderEvent.market (id : Nat) (timestamp : Int) (symbol : String)
    (side : Side) (quantity : ℚ) : OrderEvent :=
  { id := id, timestamp := timestamp, symbol := symbol, side := side,
    order_type := OrderType.Market, quantity := quantity,
    limit_price := none, stop_price := none, status := OrderStatus.Submitted }

/-- Modelled from the spec: `OrderEvent::limit` constructor — carries a limit
price. -/
def OrderEvent.limit (id : Nat) (timestamp : Int) (symbol : String)
    (side : Side) (quantity : ℚ) (limit_price : ℚ) : OrderEvent :=
  { id := id, timestamp := timestamp, symbol := symbol, side := side,
    order_type := OrderType.Limit, quantity := quantity,
    limit_price := some limit_price, stop_price := none,
    status := OrderStatus.Submitted }

/-- Modelled from the spec: `OrderEvent::stop` constructor — carries a stop
price. -/
def OrderEvent.stop (id : Nat) (timestamp : Int) (symbol : String)
    (side : Side) (quantity : ℚ) (stop_price : ℚ) : OrderEvent :=
  { id := id, timestamp := timestamp, symbol := symbol, side := side,
    order_type := OrderType.Stop, quantity := quantity,
    limit_price := none, stop_price := some stop_price,
    status := OrderStatus.Submitted }

/-- Modelled from the spec: `Fill`: `(id, order_id, timestamp, symbol, side,
quantity, fill_price, commission, slippage)`. -/
structure FillEvent where
  id : Nat
  order_id : Nat
  timestamp : Int
  symbol : String
  side : Side
  quantity : ℚ
  fill_price : ℚ
  commission : ℚ
  slippage : ℚ

/-- Modelled from the spec: a market-data event pairs a symbol with one bar
(`MarketDataEvent` of the `events` module). -/
structure MarketDataEvent where
  id : Nat
  symbol : String
  bar : Bar

/-- `BrokerageConfig` from `config.rs`. -/
structure BrokerageConfig where
  maker_fee : ℚ
  taker_fee : ℚ
  slippage_fixed : ℚ
  slippage_pct : ℚ
  realistic_fills : Bool
  margin_requirement : ℚ
  max_leverage : ℚ

/-- `impl Default for BrokerageConfig` from `config.rs`. -/
def BrokerageConfig.default : BrokerageConfig :=
  { maker_fee := 1/1000, taker_fee := 1/1000, slippage_fixed := 0,
    slippage_pct := 5/10000, realistic_fills := true,
    margin_requirement := 1, max_leverage := 1 }

/-- `Brokerage` from `brokerage.rs`.  `pending_orders` is a
`HashMap<EventId, OrderEvent>` in the source; it is modelled as an association
list whose order stands for the hash map's (unspecified) iteration order. -/
structure Brokerage where
  config : BrokerageConfig
  pending_orders : List (Nat × OrderEvent)
  event_id : Nat

/-- `Brokerage::new`. -/
def Brokerage.new (config : BrokerageConfig) : Brokerage :=
  { config := config, pending_orders := [], event_id := 0 }

/-- `Brokerage::default_config` (also `impl Default for Brokerage`). -/
def Brokerage.default_config : Brokerage :=
  Brokerage.new BrokerageConfig.default

/-- `Brokerage::calculate_slippage`.  The source draws
`rand::thread_rng().gen_range(0.5..1.5)` — a process-wide, unseeded random
source; this is modelled by consuming the head of an explicit stream `rng` of
drawn values (one value consumed per draw, only on the `realistic_fills` path,
exactly as the source reaches the `gen_range` call). -/
def Brokerage.calculate_slippage (cfg : BrokerageConfig) (order : OrderEvent)
    (bar : Bar) (base_price : ℚ) (rng : List ℚ) : ℚ × List ℚ :=
  if cfg.realistic_fills = false then (0, rng)
  else
    let fixed := cfg.slippage_fixed
    let pct := base_price * cfg.slippage_pct
    let random_factor := rng.headD 1
    let volume_impact :=
      if bar.volume > 0 then (order.quantity / bar.volume) * base_price * (1/1000)
      else 0
    ((fixed + pct + volume_impact) * random_factor, rng.tail)

/-- `Brokerage::calculate_commission`: taker fee for market orders, maker fee
for limit orders, and (via the catch-all `_` arm) taker fee for everything
else, i.e. also for stop and stop-limit orders. -/
def Brokerage.calculate_commission (cfg : BrokerageConfig) (order : OrderEvent)
    (fill_price : ℚ) : ℚ :=
  let trade_value := order.quantity * fill_price
  let fee_rate :=
    match order.order_type with
    | OrderType.Market => cfg.taker_fee
    | OrderType.Limit => cfg.maker_fee
    | _ => cfg.taker_fee
  trade_value * fee_rate

/-- `Brokerage::create_fill`: bumps the event id, computes slippage (consuming
the random stream), applies it to the base price with the side's sign, and
attaches the commission.  The source wraps the result in `Some`
unconditionally; the `some` is applied at the call sites here. -/
def Brokerage.create_fill (b : Brokerage) (order : OrderEvent) (bar : Bar)
    (base_price : ℚ) (rng : List ℚ) : Brokerage × FillEvent × List ℚ :=
  let event_id := b.event_id + 1
  let s := Brokerage.calculate_slippage b.config order bar base_price rng
  let slippage := s.1
  let fill_price :=
    match order.side with
    | Side.Buy => base_price + slippage
    | Side.Sell => base_price - slippage
  let commission := Brokerage.calculate_commission b.config order fill_price
  ({ b with event_id := event_id },
   { id := event_id, order_id := order.id, timestamp := bar.timestamp,
     symbol := order.symbol, side := order.side, quantity := order.quantity,
     fill_price := fill_price, commission := commission, slippage := slippage },
   s.2)

/-- The price-trigger match of `Brokerage::try_fill_order`, factored out: it
returns the base price at which the order fills on this bar, or `none` when no
fill is emitted.  The branch structure (order type, missing price via `?`,
side conditions against the bar's envelope) follows the source match arm for
arm; `create_fill` is hoisted to the caller. -/
def fill_base_price (order : OrderEvent) (bar : Bar) : Option ℚ :=
  match order.order_type with
  | OrderType.Market => some bar.close
  | OrderType.Limit =>
    match order.limit_price with
    | none => none
    | some limit_price =>
      match order.side with
      | Side.Buy => if bar.low ≤ limit_price then some limit_price else none
      | Side.Sell => if bar.high ≥ limit_price then some limit_price else none
  | OrderType.Stop =>
    match order.stop_price with
    | none => none
    | some stop_price =>
      match order.side with
      | Side.Buy => if bar.high ≥ stop_price then some bar.close else none
      | Side.Sell => if bar.low ≤ stop_price then some bar.close else none
  | OrderType.StopLimit =>
    match order.stop_price with
    | none => none
    | some stop_price =>
      match order.limit_price with
      | none => none
      | some limit_price =>
        match order.side with
        | Side.Buy =>
          if bar.high ≥ stop_price then
            if bar.low ≤ limit_price then some limit_price else none
          else none
        | Side.Sell =>
          if bar.low ≤ stop_price then
            if bar.high ≥ limit_price then some limit_price else none
          else none

/-- `Brokerage::try_fill_order`: fills at `fill_base_price` when that is
`some`, otherwise emits nothing. -/
def Brokerage.try_fill_order (b : Brokerage) (order : OrderEvent) (bar : Bar)
    (rng : List ℚ) : Brokerage × Option FillEvent × List ℚ :=
  match fill_base_price order bar with
  | some base_price =>
    let r := b.create_fill order bar base_price rng
    (r.1, some r.2.1, r.2.2)
  | none => (b, none, rng)

/-- `Brokerage::execute_market_order`: `None` unless the order is a market
order, else an immediate fill at the bar's close. -/
def Brokerage.execute_market_order (b : Brokerage) (order : OrderEvent)
    (bar : Bar) (rng : List ℚ) : Brokerage × Option FillEvent × List ℚ :=
  if order.order_type = OrderType.Market then
    let r := b.create_fill order bar bar.close rng
    (r.1, some r.2.1, r.2.2)
  else (b, none, rng)

/-- The loop body of `Brokerage::process_bar`: walks the pending orders in
iteration order, skipping symbol mismatches, trying to fill each matching
order once, and collecting the fills and the ids to remove. -/
def processPending (b : Brokerage) (pending : List (Nat × OrderEvent))
    (bar : Bar) (symbol : String) (rng : List ℚ) :
    Brokerage × List FillEvent × List Nat × List ℚ :=
  match pending with
  | [] => (b, [], [], rng)
  | (order_id, order) :: rest =>
    if order.symbol = symbol then
      match b.try_fill_order order bar rng with
      | (b1, some fill, rng1) =>
        let r := processPending b1 rest bar symbol rng1
        (r.1, fill :: r.2.1, order_id :: r.2.2.1, r.2.2.2)
      | (b1, none, rng1) => processPending b1 rest bar symbol rng1
    else processPending b rest bar symbol rng

/-- `Brokerage::process_bar`: evaluate every pending order against the bar
(iteration order of the hash map), then remove the filled ones. -/
def Brokerage.process_bar (b : Brokerage) (bar : Bar) (symbol : String)
    (rng : List ℚ) : Brokerage × List FillEvent × List ℚ :=
  let r := processPending b b.pending_orders bar symbol rng
  let orders_to_remove := r.2.2.1
  ({ r.1 with pending_orders :=
      r.1.pending_orders.filter (fun p => !(orders_to_remove.contains p.1)) },
   r.2.1, r.2.2.2)

/-- `Brokerage::submit_order`: market orders go straight to pending status and
are not retained; limit/stop/stop-limit orders are inserted into the pending
map. -/
def Brokerage.submit_order (b : Brokerage) (order : OrderEvent) :
    Brokerage × OrderEvent :=
  match order.order_type with
  | OrderType.Market => (b, { order with status := OrderStatus.Pending })
  | _ =>
    let order1 := { order with status := OrderStatus.Pending }
    ({ b with pending_orders := b.pending_orders ++ [(order1.id, order1)] },
     order1)

/-! Portfolio (`portfolio.rs`) -/

/-- The flat-snap threshold `1e-10` of `Position::update_with_fill` and
`Position::is_flat`. -/
def flatEps : ℚ := 1/10000000000

/-- `Position` from `portfolio.rs`. -/
structure Position where
  symbol : String
  quantity : ℚ
  average_price : ℚ
  market_value : ℚ
  unrealized_pnl : ℚ
  realized_pnl : ℚ
  cost_basis : ℚ

/-- `Position::new`. -/
def Position.new (symbol : String) : Position :=
  { symbol := symbol, quantity := 0, average_price := 0, market_value := 0,
    unrealized_pnl := 0, realized_pnl := 0, cost_basis := 0 }

/-- `Position::update_with_fill`.  On a buy the average price is recomputed
(only when the new quantity is positive) and the cost basis grows; on a sell
realized P&L is booked, quantity and cost basis shrink, and — only on this
branch — the position is snapped to flat when `|quantity| < 1e-10`. -/
def Position.update_with_fill (p : Position) (fill : FillEvent) : Position :=
  match fill.side with
  | Side.Buy =>
    let total_cost := p.quantity * p.average_price + fill.quantity * fill.fill_price
    let new_quantity := p.quantity + fill.quantity
    let avg := if new_quantity > 0 then total_cost / new_quantity else p.average_price
    { p with average_price := avg, quantity := new_quantity,
             cost_basis := p.cost_basis + fill.quantity * fill.fill_price + fill.commission }
  | Side.Sell =>
    let sold_cost := fill.quantity * p.average_price
    let sold_value := fill.quantity * fill.fill_price - fill.commission
    let realized := p.realized_pnl + (sold_value - sold_cost)
    let q := p.quantity - fill.quantity
    let cb := p.cost_basis - fill.quantity * p.average_price
    if |q| < flatEps then
      { p with realized_pnl := realized, quantity := 0, average_price := 0,
               cost_basis := 0 }
    else
      { p with realized_pnl := realized, quantity := q, cost_basis := cb }

/-- `Position::update_market_value`. -/
def Position.update_market_value (p : Position) (current_price : ℚ) : Position :=
  let mv := p.quantity * current_price
  { p with market_value := mv, unrealized_pnl := mv - p.cost_basis }

/-- `Position::is_flat`. -/
def Position.is_flat (p : Position) : Prop := |p.quantity| < flatEps

/-- `EquityPoint` from `portfolio.rs`. -/
structure EquityPoint where
  timestamp : Int
  equity : ℚ
  cash : ℚ
  positions_value : ℚ
  drawdown : ℚ
  drawdown_pct : ℚ

/-- `TradeRecord` from `portfolio.rs` (`status` is the source's `"open"` /
`"closed"` string, `side` its `"long"` / `"short"` string). -/
structure TradeRecord where
  id : Nat
  symbol : String
  side : String
  quantity : ℚ
  entry_price : ℚ
  exit_price : Option ℚ
  entry_time : Int
  exit_time : Option Int
  pnl : ℚ
  commission : ℚ
  status : String

/-- Association-list lookup standing for `HashMap::get`. -/
def lookupAssoc {α : Type} (l : List (String × α)) (key : String) : Option α :=
  (l.find? (fun p => p.1 == key)).map Prod.snd

/-- Association-list upsert standing for the `HashMap` `entry`/`insert`
pattern: replace the value at the key when present, else append the binding. -/
def upsertAssoc {α : Type} (l : List (String × α)) (key : String) (v : α) :
    List (String × α) :=
  if l.any (fun p => p.1 == key) then
    l.map (fun p => if p.1 == key then (p.1, v) else p)
  else l ++ [(key, v)]

/-- The in-place update of the first open trade for the fill's symbol inside
`Portfolio::record_trade` (`self.trades.iter_mut().find(...)` followed by the
per-side mutation).  Returns `none` when no open trade for the symbol exists. -/
def updateOpenTrade (trades : List TradeRecord) (fill : FillEvent) :
    Option (List TradeRecord) :=
  match trades with
  | [] => none
  | t :: rest =>
    if t.symbol = fill.symbol ∧ t.status = "open" then
      match fill.side with
      | Side.Buy =>
        let total_qty := t.quantity + fill.quantity
        some ({ t with
          entry_price := (t.entry_price * t.quantity + fill.fill_price * fill.quantity) / total_qty,
          quantity := total_qty,
          commission := t.commission + fill.commission } :: rest)
      | Side.Sell =>
        some ({ t with
          exit_price := some fill.fill_price,
          exit_time := some fill.timestamp,
          pnl := (fill.fill_price - t.entry_price) * fill.quantity - t.commission - fill.commission,
          commission := t.commission + fill.commission,
          status := "closed" } :: rest)
    else (updateOpenTrade rest fill).map (fun l => t :: l)

/-- `Portfolio::record_trade`: update the first open trade for the symbol, or
push a fresh record (`"long"` on a buy, `"short"` on a sell) with id
`trades.len() + 1`. -/
def record_trade (trades : List TradeRecord) (fill : FillEvent) :
    List TradeRecord :=
  match updateOpenTrade trades fill with
  | some trades1 => trades1
  | none =>
    trades ++ [{
      id := trades.length + 1,
      symbol := fill.symbol,
      side := match fill.side with | Side.Buy => "long" | Side.Sell => "short",
      quantity := fill.quantity,
      entry_price := fill.fill_price,
      exit_price := none,
      entry_time := fill.timestamp,
      exit_time := none,
      pnl := 0,
      commission := fill.commission,
      status := "open" }]

/-- `Portfolio` from `portfolio.rs`; `positions` is a `HashMap<String,
Position>` modelled as an association list. -/
structure Portfolio where
  cash : ℚ
  initial_capital : ℚ
  positions : List (String × Position)
  equity_curve : List EquityPoint
  peak_equity : ℚ
  current_drawdown : ℚ
  max_drawdown : ℚ
  total_realized_pnl : ℚ
  trades : List TradeRecord
  event_id : Nat

/-- `Portfolio::new`. -/
def Portfolio.new (initial_capital : ℚ) : Portfolio :=
  { cash := initial_capital, initial_capital := initial_capital,
    positions := [], equity_curve := [], peak_equity := initial_capital,
    current_drawdown := 0, max_drawdown := 0, total_realized_pnl := 0,
    trades := [], event_id := 0 }

/-- `Portfolio::process_fill`: update cash by the fill's side, upsert the
position, record the trade, and accumulate the realized-P&L delta. -/
def Portfolio.process_fill (pf : Portfolio) (fill : FillEvent) : Portfolio :=
  let cash1 :=
    match fill.side with
    | Side.Buy => pf.cash - (fill.quantity * fill.fill_price + fill.commission + fill.slippage)
    | Side.Sell => pf.cash + (fill.quantity * fill.fill_price - fill.commission - fill.slippage)
  let position := (lookupAssoc pf.positions fill.symbol).getD (Position.new fill.symbol)
  let prev_realized := position.realized_pnl
  let position1 := position.update_with_fill fill
  { pf with
    cash := cash1,
    positions := upsertAssoc pf.positions fill.symbol position1,
    trades := record_trade pf.trades fill,
    total_realized_pnl := pf.total_realized_pnl + (position1.realized_pnl - prev_realized) }

/-- `Portfolio::update_market_values`: refresh market value and unrealized P&L
of every position whose symbol appears in the price map. -/
def Portfolio.update_market_values (pf : Portfolio)
    (prices : List (String × ℚ)) : Portfolio :=
  { pf with positions := pf.positions.map (fun p =>
      match lookupAssoc prices p.1 with
      | some price => (p.1, p.2.update_market_value price)
      | none => p) }

/-- `Portfolio::positions_value`. -/
def Portfolio.positions_value (pf : Portfolio) : ℚ :=
  (pf.positions.map (fun p => p.2.market_value)).sum

/-- `Portfolio::total_equity`. -/
def Portfolio.total_equity (pf : Portfolio) : ℚ :=
  pf.cash + pf.positions_value

/-- `Portfolio::record_equity`. -/
def Portfolio.record_equity (pf : Portfolio) (timestamp : Int) : Portfolio :=
  let equity := pf.total_equity
  let positions_value := pf.positions_value
  let peak := if equity > pf.peak_equity then equity else pf.peak_equity
  let dd := peak - equity
  let dd_pct := if peak > 0 then dd / peak * 100 else 0
  let maxdd := if dd > pf.max_drawdown then dd else pf.max_drawdown
  { pf with
    peak_equity := peak, current_drawdown := dd, max_drawdown := maxdd,
    equity_curve := pf.equity_curve ++ [{
      timestamp := timestamp, equity := equity, cash := pf.cash,
      positions_value := positions_value, drawdown := dd,
      drawdown_pct := dd_pct }] }

/-! Order manager (`order_manager.rs`) -/

/-- `OrderManager` from `order_manager.rs`; the `orders` hash map is an
association list, the three id vectors are kept verbatim. -/
structure OrderManager where
  orders : List (Nat × OrderEvent)
  open_orders : List Nat
  filled_orders : List Nat
  cancelled_orders : List Nat
  next_id : Nat

/-- `OrderManager::new`. -/
def OrderManager.new : OrderManager :=
  { orders := [], open_orders := [], filled_orders := [],
    cancelled_orders := [], next_id := 1 }

/-- The private `OrderManager::submit_order`: register the order and its id as
open, bump `next_id`. -/
def OrderManager.submit_order (om : OrderManager) (order : OrderEvent) :
    OrderManager :=
  { om with orders := om.orders ++ [(order.id, order)],
            open_orders := om.open_orders ++ [order.id],
            next_id := om.next_id + 1 }

/-- `OrderManager::create_market_order`. -/
def OrderManager.create_market_order (om : OrderManager) (timestamp : Int)
    (symbol : String) (side : Side) (quantity : ℚ) :
    OrderManager × OrderEvent :=
  let order := OrderEvent.market om.next_id timestamp symbol side quantity
  (om.submit_order order, order)

/-- `OrderManager::create_limit_order`. -/
def OrderManager.create_limit_order (om : OrderManager) (timestamp : Int)
    (symbol : String) (side : Side) (quantity : ℚ) (limit_price : ℚ) :
    OrderManager × OrderEvent :=
  let order := OrderEvent.limit om.next_id timestamp symbol side quantity limit_price
  (om.submit_order order, order)

/-- `OrderManager::create_stop_order`. -/
def OrderManager.create_stop_order (om : OrderManager) (timestamp : Int)
    (symbol : String) (side : Side) (quantity : ℚ) (stop_price : ℚ) :
    OrderManager × OrderEvent :=
  let order := OrderEvent.stop om.next_id timestamp symbol side quantity stop_price
  (om.submit_order order, order)

/-- Update the status of the order stored under `order_id` (the
`orders.get_mut` pattern); identity when the id is absent. -/
def setOrderStatus (orders : List (Nat × OrderEvent)) (order_id : Nat)
    (status : OrderStatus) : List (Nat × OrderEvent) :=
  orders.map (fun p => if p.1 = order_id then (p.1, { p.2 with status := status }) else p)

/-- Membership test used to model `orders.get_mut(&order_id)` succeeding. -/
def hasOrder (orders : List (Nat × OrderEvent)) (order_id : Nat) : Bool :=
  orders.any (fun p => p.1 = order_id)

/-- `OrderManager::mark_pending`: sets the status unconditionally — the source
has no guard on the current status. -/
def OrderManager.mark_pending (om : OrderManager) (order_id : Nat) :
    OrderManager :=
  if hasOrder om.orders order_id then
    { om with orders := setOrderStatus om.orders order_id OrderStatus.Pending }
  else om

/-- `OrderManager::mark_filled`: unconditionally sets the status, filters the
id out of the open list, and pushes it onto the filled list — with no check of
the current status. -/
def OrderManager.mark_filled (om : OrderManager) (order_id : Nat) :
    OrderManager :=
  if hasOrder om.orders order_id then
    { om with orders := setOrderStatus om.orders order_id OrderStatus.Filled,
              open_orders := om.open_orders.filter (fun id => id ≠ order_id),
              filled_orders := om.filled_orders ++ [order_id] }
  else om

/-- `OrderManager::mark_cancelled`: same shape as `mark_filled`, pushing onto
the cancelled list. -/
def OrderManager.mark_cancelled (om : OrderManager) (order_id : Nat) :
    OrderManager :=
  if hasOrder om.orders order_id then
    { om with orders := setOrderStatus om.orders order_id OrderStatus.Cancelled,
              open_orders := om.open_orders.filter (fun id => id ≠ order_id),
              cancelled_orders := om.cancelled_orders ++ [order_id] }
  else om

/-- `OrderManager::mark_rejected`. -/
def OrderManager.mark_rejected (om : OrderManager) (order_id : Nat) :
    OrderManager :=
  if hasOrder om.orders order_id then
    { om with orders := setOrderStatus om.orders order_id OrderStatus.Rejected,
              open_orders := om.open_orders.filter (fun id => id ≠ order_id) }
  else om

/-- `OrderManager::reset`. -/
def OrderManager.reset (om : OrderManager) : OrderManager :=
  { om with orders := [], open_orders := [], filled_orders := [],
            cancelled_orders := [], next_id := 1 }

/-! Data feed (`datafeed.rs`) -/

/-- `DataFeed` from `datafeed.rs`; the `data` and `indices` hash maps are
association lists whose order stands for the maps' iteration order. -/
structure DataFeed where
  data : List (String × List Bar)
  indices : List (String × Nat)
  event_id : Nat
  align_timestamps : Bool

/-- `DataFeed::new`. -/
def DataFeed.new : DataFeed :=
  { data := [], indices := [], event_id := 0, align_timestamps := true }

/-- The timestamp-collection loop of `DataFeed::get_aligned_bars`: walk every
loaded bar and push its timestamp unless already present (first-occurrence
dedup). -/
def collectTimestamps (data : List (String × List Bar)) : List Int :=
  data.foldl
    (fun acc p => p.2.foldl
      (fun a b => if a.contains b.timestamp then a else a ++ [b.timestamp]) acc)
    []

/-- The inner per-timestamp loop of `DataFeed::get_aligned_bars`: for each map
entry (in iteration order), emit the first bar carrying this timestamp. -/
def emitAt (data : List (String × List Bar)) (ts : Int) :
    List (String × Bar) :=
  data.filterMap (fun p =>
    (p.2.find? (fun b => b.timestamp == ts)).map (fun b => (p.1, b)))

/-- `DataFeed::get_aligned_bars`: sorted distinct timestamps, then one event
per symbol holding a bar at each timestamp, with sequential event ids. -/
def DataFeed.get_aligned_bars (d : DataFeed) : DataFeed × List MarketDataEvent :=
  let all_timestamps := List.insertionSort (fun a b => a ≤ b) (collectTimestamps d.data)
  let pairs := all_timestamps.flatMap (fun ts => emitAt d.data ts)
  let events := pairs.enum.map (fun q =>
    { id := d.event_id + q.1 + 1, symbol := q.2.1, bar := q.2.2 })
  ({ d with event_id := d.event_id + pairs.length }, events)

/-- `DataFeed::reset`: zero every index, reset ids; the loaded data stays. -/
def DataFeed.reset (d : DataFeed) : DataFeed :=
  { d with indices := d.indices.map (fun p => (p.1, 0)), event_id := 0 }

/-! Engine (`engine.rs`) -/

/-- `BacktestConfig` from `config.rs`. -/
structure BacktestConfig where
  initial_capital : ℚ
  start_date : String
  end_date : String
  symbols : List String
  timeframe : String
  maker_fee : ℚ
  taker_fee : ℚ
  slippage_pct : ℚ

/-- `BacktestEngine` from `engine.rs`.  The `event_queue` field (a binary heap
that the run path never pushes to) is omitted; signals are looked up by the bar
timestamp (the source keys the map by the timestamp's RFC3339 rendering, which
is injective in the instant). -/
structure BacktestEngine where
  config : BacktestConfig
  data_feed : DataFeed
  portfolio : Portfolio
  brokerage : Brokerage
  order_manager : OrderManager
  current_prices : List (String × ℚ)
  current_time : Option Int
  bars_processed : Nat
  total_bars : Nat
  running : Bool

/-- `BacktestEngine::new`: the brokerage is configured from the engine config's
fees and slippage, all other brokerage fields from `BrokerageConfig::default()`
(the `..Default::default()` spread). -/
def BacktestEngine.new (config : BacktestConfig) : BacktestEngine :=
  let brokerage_config :=
    { BrokerageConfig.default with
        maker_fee := config.maker_fee,
        taker_fee := config.taker_fee,
        slippage_pct := config.slippage_pct }
  { config := config,
    data_feed := DataFeed.new,
    portfolio := Portfolio.new config.initial_capital,
    brokerage := Brokerage.new brokerage_config,
    order_manager := OrderManager.new,
    current_prices := [], current_time := none,
    bars_processed := 0, total_bars := 0, running := false }

/-- `BacktestEngine::reset`: fresh portfolio from the configured capital, but
`Brokerage::default()` — the brokerage config built by `new` from the engine
config is not restored. -/
def BacktestEngine.reset (e : BacktestEngine) : BacktestEngine :=
  { e with
    portfolio := Portfolio.new e.config.initial_capital,
    brokerage := Brokerage.default_config,
    order_manager := e.order_manager.reset,
    data_feed := e.data_feed.reset,
    current_prices := [], current_time := none,
    bars_processed := 0, running := false }

/-- `BacktestEngine::calculate_order_size`: 95 % of available cash, adjusted
for taker fee and slippage percentage, divided by the price. -/
def BacktestEngine.calculate_order_size (e : BacktestEngine) (price : ℚ) : ℚ :=
  let available := e.portfolio.cash
  let position_size := available * (95/100)
  let fee_adjusted := position_size / (1 + e.config.taker_fee + e.config.slippage_pct)
  fee_adjusted / price

/-- Signal lookup (`signal_map.get(&timestamp_key)`). -/
def lookupSignal (signals : List (Int × Int)) (ts : Int) : Option Int :=
  (signals.find? (fun p => p.1 == ts)).map Prod.snd

/-- `BacktestEngine::execute_signal`: on `+1` with non-positive current
quantity, size a market buy from available cash, execute it against the bar
and process the fill; on `-1` with positive quantity, sell the whole position;
anything else is a no-op. -/
def BacktestEngine.execute_signal (e : BacktestEngine) (symbol : String)
    (signal : Int) (bar : Bar) (rng : List ℚ) : BacktestEngine × List ℚ :=
  let current_qty :=
    ((lookupAssoc e.portfolio.positions symbol).map Position.quantity).getD 0
  if signal = 1 then
    if current_qty ≤ 0 then
      let order_qty := e.calculate_order_size bar.close
      if order_qty > 0 then
        let cm := e.order_manager.create_market_order bar.timestamp symbol Side.Buy order_qty
        let ex := e.brokerage.execute_market_order cm.2 bar rng
        match ex.2.1 with
        | some fill =>
          ({ e with order_manager := cm.1.mark_filled cm.2.id,
                    brokerage := ex.1,
                    portfolio := e.portfolio.process_fill fill }, ex.2.2)
        | none =>
          ({ e with order_manager := cm.1, brokerage := ex.1 }, ex.2.2)
      else (e, rng)
    else (e, rng)
  else if signal = -1 then
    if current_qty > 0 then
      let cm := e.order_manager.create_market_order bar.timestamp symbol Side.Sell current_qty
      let ex := e.brokerage.execute_market_order cm.2 bar rng
      match ex.2.1 with
      | some fill =>
        ({ e with order_manager := cm.1.mark_filled cm.2.id,
                  brokerage := ex.1,
                  portfolio := e.portfolio.process_fill fill }, ex.2.2)
      | none =>
        ({ e with order_manager := cm.1, brokerage := ex.1 }, ex.2.2)
    else (e, rng)
  else (e, rng)

/-- `BacktestEngine::process_market_data`: record current price and time, apply
the brokerage's pending-order fills to the portfolio, then look up and execute
the signal for the bar's timestamp, then mark to market and record equity. -/
def BacktestEngine.process_market_data (e : BacktestEngine)
    (event : MarketDataEvent) (signals : List (Int × Int)) (rng : List ℚ) :
    BacktestEngine × List ℚ :=
  let symbol := event.symbol
  let bar := event.bar
  let e1 := { e with
    current_prices := upsertAssoc e.current_prices symbol bar.close,
    current_time := some bar.timestamp }
  let pb := e1.brokerage.process_bar bar symbol rng
  let e2 := { e1 with
    brokerage := pb.1,
    portfolio := pb.2.1.foldl Portfolio.process_fill e1.portfolio }
  let step3 :=
    match lookupSignal signals bar.timestamp with
    | some signal => e2.execute_signal symbol signal bar pb.2.2
    | none => (e2, pb.2.2)
  let e3 := step3.1
  let e4 := { e3 with portfolio := e3.portfolio.update_market_values e3.current_prices }
  let e5 := { e4 with portfolio := e4.portfolio.record_equity bar.timestamp }
  (e5, step3.2)

/-! Concrete inputs used by the theorems below. -/

/-- A market buy order for one unit (concrete input). -/
def c1order : OrderEvent := OrderEvent.market 1 0 "BTC/USD" Side.Buy 1

/-- A concrete bar `(100, 105, 95, 102, 10000)`. -/
def c1bar : Bar :=
  { timestamp := 0, op := 100, high := 105, low := 95, close := 102, volume := 10000 }

/-- C1: the spec demands that fills be a deterministic function of the inputs
and a slippage seed.  The source's `calculate_slippage` has no seed input at
all: it draws its random factor from the process-wide `rand::thread_rng()`.
Under the default configuration (realistic fills on), two admissible draws of
that generator — `0.5` and `1.0`, both inside the `gen_range(0.5..1.5)`
interval — give different slippage and different fill prices for the identical
order, bar, base price and configuration, so a run's equity curve and ledger
are not reproducible from its inputs. -/
theorem c1_slippage_not_seed_deterministic :
    (Brokerage.calculate_slippage BrokerageConfig.default c1order c1bar 100 [1/2]).1 ≠
      (Brokerage.calculate_slippage BrokerageConfig.default c1order c1bar 100 [1]).1 ∧
    ((Brokerage.default_config.create_fill c1order c1bar 100 [1/2]).2.1).fill_price ≠
      ((Brokerage.default_config.create_fill c1order c1bar 100 [1]).2.1).fill_price := by
  constructor <;>
    norm_num [Brokerage.calculate_slippage, Brokerage.create_fill,
      Brokerage.calculate_commission, Brokerage.default_config, Brokerage.new,
      BrokerageConfig.default, c1order, c1bar, OrderEvent.market]

/-- A backtest configuration whose fees differ from the brokerage defaults
(concrete input). -/
def c2cfg : BacktestConfig :=
  { initial_capital := 10000, start_date := "2023-01-01",
    end_date := "2024-01-01", symbols := ["BTC/USDT"], timeframe := "1h",
    maker_fee := 1/20, taker_fee := 3/100, slippage_pct := 1/100 }

/-- C2: `BacktestEngine::reset` installs `Brokerage::default()` instead of the
brokerage that `BacktestEngine::new` builds from the engine configuration: for
a configuration with a 5 % maker fee, the brokerage fee after reset falls back
to the 0.1 % default, so reset does not reconstruct the brokerage to the
engine's initial state. -/
theorem c2_reset_forgets_brokerage_config :
    ((BacktestEngine.new c2cfg).reset).brokerage.config.maker_fee ≠
      (BacktestEngine.new c2cfg).brokerage.config.maker_fee ∧
    ((BacktestEngine.new c2cfg).reset).brokerage.config.maker_fee =
      BrokerageConfig.default.maker_fee ∧
    (BacktestEngine.new c2cfg).brokerage.config.maker_fee = 1/20 := by
  norm_num [BacktestEngine.new, BacktestEngine.reset, Brokerage.default_config,
    Brokerage.new, BrokerageConfig.default, c2cfg]

/-- A brokerage configuration with distinct maker and taker fees (concrete
input). -/
def c5cfg : BrokerageConfig :=
  { maker_fee := 1/1000, taker_fee := 2/1000, slippage_fixed := 0,
    slippage_pct := 0, realistic_fills := false, margin_requirement := 1,
    max_leverage := 1 }

/-- A stop-limit buy order for one unit (concrete input). -/
def c5order : OrderEvent :=
  { id := 1, timestamp := 0, symbol := "BTC/USD", side := Side.Buy,
    order_type := OrderType.StopLimit, quantity := 1,
    limit_price := some 100, stop_price := some 99,
    status := OrderStatus.Submitted }

/-- C5 counterexample: for a stop-limit order the claimed fee rate is the maker
fee, but `calculate_commission`'s catch-all arm charges the taker fee: with
maker 0.1 % and taker 0.2 % on a unit trade at price 100 the commission is
0.2, not the claimed 0.1. -/
theorem c5_stop_limit_charged_taker :
    Brokerage.calculate_commission c5cfg c5order 100 ≠
      c5order.quantity * 100 * c5cfg.maker_fee ∧
    Brokerage.calculate_commission c5cfg c5order 100 =
      c5order.quantity * 100 * c5cfg.taker_fee := by
  norm_num [Brokerage.calculate_commission, c5cfg, c5order]

/-- C5 (amended): every fill created by the brokerage carries commission
`quantity × fill_price × fee_rate`, where the fee rate is the maker fee for
limit orders and the taker fee for market, stop and stop-limit orders. -/
theorem c5_create_fill_commission (b : Brokerage) (order : OrderEvent)
    (bar : Bar) (base_price : ℚ) (rng : List ℚ) :
    ((b.create_fill order bar base_price rng).2.1).commission =
      ((b.create_fill order bar base_price rng).2.1).quantity *
        ((b.create_fill order bar base_price rng).2.1).fill_price *
        (if order.order_type = OrderType.Limit then b.config.maker_fee
         else b.config.taker_fee) := by
  cases h : order.order_type <;>
    simp [Brokerage.create_fill, Brokerage.calculate_commission, h, mul_assoc]

/-- An order manager holding one limit order with id 1 (concrete input). -/
def c8om : OrderManager :=
  (OrderManager.new.create_limit_order 0 "BTC/USD" Side.Buy 1 100).1

/-- The same order manager after the order reached the terminal `Filled`
status. -/
def c8filled : OrderManager := c8om.mark_filled 1

/-- C8: transitions out of a terminal status are not no-ops.  After order 1 is
`Filled`, `mark_pending(1)` drags the status back to `Pending`, and
`mark_cancelled(1)` rewrites it to `Cancelled` while pushing the id onto the
cancelled list and leaving it on the filled list — so the order sits in two
closed lists with a status inconsistent with one of them. -/
theorem c8_terminal_transitions_not_noop :
    ((c8filled.mark_pending 1).orders.find? (fun p => p.1 == 1)).map
        (fun p => p.2.status) = some OrderStatus.Pending ∧
    (c8filled.mark_cancelled 1).filled_orders = [1] ∧
    (c8filled.mark_cancelled 1).cancelled_orders = [1] ∧
    ((c8filled.mark_cancelled 1).orders.find? (fun p => p.1 == 1)).map
        (fun p => p.2.status) = some OrderStatus.Cancelled := by
  simp [c8filled, c8om, OrderManager.new, OrderManager.create_limit_order,
    OrderEvent.limit, OrderManager.submit_order, OrderManager.mark_filled,
    OrderManager.mark_pending, OrderManager.mark_cancelled, setOrderStatus,
    hasOrder, List.find?]

/-- A sell fill for one unit at 100 with no fees (concrete input). -/
def c9sell : FillEvent :=
  { id := 1, order_id := 0, timestamp := 0, symbol := "X", side := Side.Sell,
    quantity := 1, fill_price := 100, commission := 0, slippage := 0 }

/-- A buy fill for one unit at 100 with commission 1 (concrete input). -/
def c9buy : FillEvent :=
  { id := 2, order_id := 0, timestamp := 0, symbol := "X", side := Side.Buy,
    quantity := 1, fill_price := 100, commission := 1, slippage := 0 }

/-- C9 counterexample: a sell from flat leaves quantity −1; the buy that brings
it back through zero leaves `|quantity| < 1e-10` but `cost_basis = 101 ≠ 0`,
because the flat snap exists only in the sell branch of
`Position::update_with_fill`. -/
theorem c9_buy_crossing_not_snapped :
    |(((Position.new "X").update_with_fill c9sell).update_with_fill c9buy).quantity|
        < flatEps ∧
    (((Position.new "X").update_with_fill c9sell).update_with_fill c9buy).cost_basis
        ≠ 0 := by
  norm_num [Position.new, Position.update_with_fill, c9sell, c9buy, flatEps]

/-- C9 (amended): the flat snap holds for sells — whenever applying a Sell fill
leaves the position with `|quantity| < 1e-10`, its quantity, average price and
cost basis are exactly zero.  (A Buy fill crossing to zero is not snapped; see
the counterexample.) -/
theorem c9_sell_flat_snap (p : Position) (fill : FillEvent)
    (hs : fill.side = Side.Sell)
    (h : |(p.update_with_fill fill).quantity| < flatEps) :
    (p.update_with_fill fill).quantity = 0 ∧
    (p.update_with_fill fill).average_price = 0 ∧
    (p.update_with_fill fill).cost_basis = 0 := by
  simp only [Position.update_with_fill, hs] at h ⊢
  split_ifs at h ⊢ with hc
  · simp
  · simp only at h
    exact absurd h hc

/-- A long position of one unit at average price 100 (concrete input). -/
def c9pos : Position :=
  { symbol := "X", quantity := 1, average_price := 100, market_value := 0,
    unrealized_pnl := 0, realized_pnl := 0, cost_basis := 100 }

/-- A sell fill closing that position at 110 (concrete input). -/
def c9wsell : FillEvent :=
  { id := 3, order_id := 0, timestamp := 0, symbol := "X", side := Side.Sell,
    quantity := 1, fill_price := 110, commission := 0, slippage := 0 }

/-- Witness for `c9_sell_flat_snap` at a concrete closing sell. -/
theorem c9_sell_flat_snap_witness :
    (c9pos.update_with_fill c9wsell).quantity = 0 ∧
    (c9pos.update_with_fill c9wsell).average_price = 0 ∧
    (c9pos.update_with_fill c9wsell).cost_basis = 0 :=
  c9_sell_flat_snap c9pos c9wsell rfl
    (by norm_num [c9pos, c9wsell, Position.update_with_fill, flatEps])

/-- C3: the fill rules of `try_fill_order` for pending (limit / stop /
stop-limit) orders against a bar.  A Buy Limit fills iff `low ≤ limit`, a Sell
Limit iff `high ≥ limit`, at base price `limit`; a Buy Stop fills iff
`high ≥ stop`, a Sell Stop iff `low ≤ stop`, at base price `close`; a
StopLimit fills iff its stop trigger fires and the bar's range reaches the
limit with the plain-limit inequality, at base price `limit` (the fill price
is the base price shifted by the fill's slippage, `+` for buys, `−` for
sells); in every other case, including a missing required price, no fill is
emitted. -/
theorem c3_try_fill_order_rules (b : Brokerage) (order : OrderEvent) (bar : Bar)
    (rng : List ℚ) :
    (∀ l, order.order_type = OrderType.Limit → order.limit_price = some l →
      (((b.try_fill_order order bar rng).2.1).isSome ↔
        ((order.side = Side.Buy ∧ bar.low ≤ l) ∨
         (order.side = Side.Sell ∧ bar.high ≥ l))) ∧
      (∀ f, (b.try_fill_order order bar rng).2.1 = some f →
        f.fill_price = match order.side with
          | Side.Buy => l + f.slippage
          | Side.Sell => l - f.slippage)) ∧
    (∀ s, order.order_type = OrderType.Stop → order.stop_price = some s →
      (((b.try_fill_order order bar rng).2.1).isSome ↔
        ((order.side = Side.Buy ∧ bar.high ≥ s) ∨
         (order.side = Side.Sell ∧ bar.low ≤ s))) ∧
      (∀ f, (b.try_fill_order order bar rng).2.1 = some f →
        f.fill_price = match order.side with
          | Side.Buy => bar.close + f.slippage
          | Side.Sell => bar.close - f.slippage)) ∧
    (∀ s l, order.order_type = OrderType.StopLimit → order.stop_price = some s →
      order.limit_price = some l →
      (((b.try_fill_order order bar rng).2.1).isSome ↔
        ((order.side = Side.Buy ∧ bar.high ≥ s ∧ bar.low ≤ l) ∨
         (order.side = Side.Sell ∧ bar.low ≤ s ∧ bar.high ≥ l))) ∧
      (∀ f, (b.try_fill_order order bar rng).2.1 = some f →
        f.fill_price = match order.side with
          | Side.Buy => l + f.slippage
          | Side.Sell => l - f.slippage)) ∧
    (order.order_type = OrderType.Limit → order.limit_price = none →
      (b.try_fill_order order bar rng).2.1 = none) ∧
    (order.order_type = OrderType.Stop → order.stop_price = none →
      (b.try_fill_order order bar rng).2.1 = none) ∧
    (order.order_type = OrderType.StopLimit →
      (order.stop_price = none ∨ order.limit_price = none) →
      (b.try_fill_order order bar rng).2.1 = none) := by
  rcases order with ⟨oid, ots, osym, oside, otype, oqty, olp, osp, ost⟩
  refine ⟨?_, ?_, ?_, ?_, ?_, ?_⟩
  · rintro l rfl rfl
    cases oside <;>
      constructor <;>
      simp only [Brokerage.try_fill_order, fill_base_price, Brokerage.create_fill] <;>
      split_ifs with h <;>
      simp_all
  · rintro s rfl rfl
    cases oside <;>
      constructor <;>
      simp only [Brokerage.try_fill_order, fill_base_price, Brokerage.create_fill] <;>
      split_ifs with h <;>
      simp_all
  · rintro s l rfl rfl rfl
    cases oside <;>
      constructor <;>
      simp only [Brokerage.try_fill_order, fill_base_price, Brokerage.create_fill] <;>
      split_ifs with h h2 <;>
      simp_all
  · rintro rfl rfl
    simp [Brokerage.try_fill_order, fill_base_price]
  · rintro rfl rfl
    simp [Brokerage.try_fill_order, fill_base_price]
  · rintro rfl h
    rcases h with h | h
    · subst h
      simp [Brokerage.try_fill_order, fill_base_price]
    · subst h
      cases osp <;> simp [Brokerage.try_fill_order, fill_base_price]

/-- A fee-free brokerage with no pending orders (concrete input). -/
def c3b : Brokerage :=
  Brokerage.new
    { maker_fee := 0, taker_fee := 0, slippage_fixed := 0, slippage_pct := 0,
      realistic_fills := false, margin_requirement := 1, max_leverage := 1 }

/-- A buy limit order at 96 (concrete input). -/
def c3order : OrderEvent := OrderEvent.limit 1 0 "BTC/USD" Side.Buy 1 96

/-- A bar `(100, 102, 95, 98, 10000)` whose low reaches the limit (concrete
input). -/
def c3bar : Bar :=
  { timestamp := 0, op := 100, high := 102, low := 95, close := 98,
    volume := 10000 }

/-- Witness for `c3_try_fill_order_rules`: the buy limit at 96 fills on a bar
with low 95. -/
theorem c3_try_fill_order_rules_witness :
    ((c3b.try_fill_order c3order c3bar []).2.1).isSome := by
  have h := ((c3_try_fill_order_rules c3b c3order c3bar []).1 96 rfl rfl).1
  rw [h]
  left
  exact ⟨rfl, by norm_num [c3bar]⟩

/-- Boolean test matching `record_trade`'s search predicate: open trade for
the symbol. -/
def openFor (sym : String) (t : TradeRecord) : Bool :=
  t.symbol == sym && t.status == "open"

/-- The record produced when `record_trade` closes `t` with a sell `fill`. -/
def closeTrade (t : TradeRecord) (fill : FillEvent) : TradeRecord :=
  { t with
    exit_price := some fill.fill_price,
    exit_time := some fill.timestamp,
    pnl := (fill.fill_price - t.entry_price) * fill.quantity - t.commission - fill.commission,
    commission := t.commission + fill.commission,
    status := "closed" }

/-- Helper for C10: on a sell, with exactly one open trade for the fill's
symbol, `updateOpenTrade` closes exactly that trade and no open trade for the
symbol survives. -/
theorem updateOpenTrade_sell (trades : List TradeRecord) (fill : FillEvent)
    (hs : fill.side = Side.Sell)
    (h1 : trades.countP (openFor fill.symbol) = 1) :
    ∃ pre t post, trades = pre ++ t :: post ∧
      (∀ u ∈ pre, openFor fill.symbol u = false) ∧
      openFor fill.symbol t = true ∧
      updateOpenTrade trades fill = some (pre ++ closeTrade t fill :: post) ∧
      (pre ++ closeTrade t fill :: post).countP (openFor fill.symbol) = 0 := by
  induction trades with
  | nil => simp at h1
  | cons t rest ih =>
    by_cases hopen : openFor fill.symbol t = true
    · have hcond : t.symbol = fill.symbol ∧ t.status = "open" := by
        simpa [openFor] using hopen
      have hrest : rest.countP (openFor fill.symbol) = 0 := by
        have := List.countP_cons_of_pos (openFor fill.symbol) rest hopen
        omega
        -- countP (t::rest) = countP rest + 1 = 1
      refine ⟨[], t, rest, by simp, by simp, hopen, ?_, ?_⟩
      · simp only [updateOpenTrade, if_pos hcond, hs, closeTrade]
        simp
      · have hct : openFor fill.symbol (closeTrade t fill) = false := by
          simp [openFor, closeTrade]
        simp only [List.nil_append]
        rw [List.countP_eq_zero]
        intro a ha
        rcases List.mem_cons.mp ha with h | h
        · subst h
          simp [hct]
        · exact List.countP_eq_zero.mp hrest a h
    · have hcond : ¬ (t.symbol = fill.symbol ∧ t.status = "open") := by
        simpa [openFor] using hopen
      have hrest : rest.countP (openFor fill.symbol) = 1 := by
        have := List.countP_cons_of_neg (openFor fill.symbol) rest hopen
        omega
      obtain ⟨pre, t1, post, heq, hpre, ht1, hupd, hcnt⟩ := ih hrest
      refine ⟨t :: pre, t1, post, by simp [heq], ?_, ht1, ?_, ?_⟩
      · intro u hu
        rcases List.mem_cons.mp hu with h | h
        · subst h; simpa using hopen
        · exact hpre u h
      · simp only [updateOpenTrade, if_neg hcond, hupd, Option.map_some]
        simp
      · simp [List.countP_cons_of_neg _ _ hopen, hcnt]

/-- `updateOpenTrade` finds no record exactly when no open record for the
fill's symbol exists. -/
theorem updateOpenTrade_none_iff (fill : FillEvent) :
    ∀ trades : List TradeRecord,
    updateOpenTrade trades fill = none ↔
      trades.countP (openFor fill.symbol) = 0 := by
  intro trades
  induction trades with
  | nil => simp [updateOpenTrade]
  | cons t rest ih =>
    by_cases hc : t.symbol = fill.symbol ∧ t.status = "open"
    · have hopen : openFor fill.symbol t = true := by simp [openFor, hc.1, hc.2]
      constructor
      · intro h
        exfalso
        cases hs : fill.side <;>
          simp [updateOpenTrade, if_pos hc, hs] at h
      · intro h
        rw [List.countP_cons_of_pos _ _ hopen] at h
        omega
    · have hopen : openFor fill.symbol t = false := by
        rw [Bool.eq_false_iff]
        intro hh
        simp only [openFor, Bool.and_eq_true, beq_iff_eq] at hh
        exact hc ⟨hh.1, hh.2⟩
      rw [List.countP_cons_of_neg _ _ (by simp [hopen])]
      simp only [updateOpenTrade, if_neg hc]
      rw [← ih]
      cases updateOpenTrade rest fill <;> simp

/-- Updating a trade in place never increases the number of open records for
any symbol. -/
theorem updateOpenTrade_countP_le (fill : FillEvent) (s : String) :
    ∀ trades trades1 : List TradeRecord,
    updateOpenTrade trades fill = some trades1 →
    trades1.countP (openFor s) ≤ trades.countP (openFor s) := by
  intro trades
  induction trades with
  | nil => intro trades1 h; simp [updateOpenTrade] at h
  | cons t rest ih =>
    intro trades1 h
    by_cases hc : t.symbol = fill.symbol ∧ t.status = "open"
    · cases hs : fill.side with
      | Buy =>
        simp only [updateOpenTrade, if_pos hc, hs, Option.some_inj] at h
        subst h
        rw [List.countP_cons, List.countP_cons]
        have heq : openFor s { t with
            entry_price := (t.entry_price * t.quantity + fill.fill_price * fill.quantity) /
              (t.quantity + fill.quantity),
            quantity := t.quantity + fill.quantity,
            commission := t.commission + fill.commission } = openFor s t := rfl
        rw [heq]
      | Sell =>
        simp only [updateOpenTrade, if_pos hc, hs, Option.some_inj] at h
        subst h
        rw [List.countP_cons, List.countP_cons]
        have heq : openFor s { t with
            exit_price := some fill.fill_price,
            exit_time := some fill.timestamp,
            pnl := (fill.fill_price - t.entry_price) * fill.quantity - t.commission - fill.commission,
            commission := t.commission + fill.commission,
            status := "closed" } =
            (t.symbol == s && (("closed" : String) == "open")) := rfl
        rw [heq, show (("closed" : String) == "open") = false from by decide,
          Bool.and_false]
        simp only [Bool.false_eq_true, if_false]
        omega
    · simp only [updateOpenTrade, if_neg hc] at h
      cases hrec : updateOpenTrade rest fill with
      | none => rw [hrec] at h; simp at h
      | some rest1 =>
        rw [hrec] at h
        simp at h
        subst h
        rw [List.countP_cons, List.countP_cons]
        have := ih rest1 hrec
        omega

/-- A trade record for another symbol is never counted as open for `s`. -/
theorem openFor_ne (s : String) (r : TradeRecord) (h : r.symbol ≠ s) :
    openFor s r = false := by
  rw [Bool.eq_false_iff]
  intro hh
  simp only [openFor, Bool.and_eq_true, beq_iff_eq] at hh
  exact h hh.1

/-- The trade ledger keeps at most one open record per symbol: `record_trade`
preserves the bound for every symbol (a record is opened only when no open
record for the fill's symbol exists). -/
theorem record_trade_at_most_one_open (trades : List TradeRecord)
    (fill : FillEvent) (s : String)
    (h : trades.countP (openFor s) ≤ 1) :
    (record_trade trades fill).countP (openFor s) ≤ 1 := by
  cases hu : updateOpenTrade trades fill with
  | some trades1 =>
    simp only [record_trade, hu]
    exact le_trans (updateOpenTrade_countP_le fill s trades trades1 hu) h
  | none =>
    simp only [record_trade, hu]
    rw [List.countP_append]
    have hone : ∀ r : TradeRecord, List.countP (openFor s) [r] ≤ 1 := by
      intro r
      simp only [List.countP_cons, List.countP_nil]
      split_ifs <;> omega
    by_cases hss : s = fill.symbol
    · have h0 : trades.countP (openFor s) = 0 := by
        rw [hss]
        exact (updateOpenTrade_none_iff fill trades).mp hu
      rw [h0]
      simpa using hone _
    · have hne : ∀ r : TradeRecord, r.symbol = fill.symbol → openFor s r = false := by
        intro r hr
        apply openFor_ne
        rw [hr]
        exact fun he => hss he.symm
      simp only [List.countP_cons, List.countP_nil, hne, Bool.false_eq_true,
        if_false]
      omega

/-- C10: a sell fill processed while exactly one trade record for its symbol
is open closes that record — exit price and time from the fill, pnl
`(fill_price − entry_price) × fill.quantity` minus the accumulated and fill
commissions — irrespective of whether the fill's quantity covers the
record's, and afterwards no open trade record for the symbol remains. -/
theorem c10_sell_closes_open_trade (pf : Portfolio) (fill : FillEvent)
    (hs : fill.side = Side.Sell)
    (h1 : pf.trades.countP (openFor fill.symbol) = 1) :
    ∃ pre t post, pf.trades = pre ++ t :: post ∧
      (∀ u ∈ pre, openFor fill.symbol u = false) ∧
      openFor fill.symbol t = true ∧
      (pf.process_fill fill).trades = pre ++ closeTrade t fill :: post ∧
      ((pf.process_fill fill).trades).countP (openFor fill.symbol) = 0 := by
  obtain ⟨pre, t, post, heq, hpre, ht, hupd, hcnt⟩ :=
    updateOpenTrade_sell pf.trades fill hs h1
  refine ⟨pre, t, post, heq, hpre, ht, ?_, ?_⟩
  · simp [Portfolio.process_fill, record_trade, hupd]
  · simp [Portfolio.process_fill, record_trade, hupd, hcnt]

/-- An open long trade of two units at 100 with accumulated commission 1
(concrete input). -/
def c10trade : TradeRecord :=
  { id := 1, symbol := "X", side := "long", quantity := 2, entry_price := 100,
    exit_price := none, entry_time := 0, exit_time := none, pnl := 0,
    commission := 1, status := "open" }

/-- A portfolio holding only that open trade (concrete input). -/
def c10pf : Portfolio := { Portfolio.new 1000 with trades := [c10trade] }

/-- A sell fill for one of the two units at 110 with commission 2 (concrete
input). -/
def c10fill : FillEvent :=
  { id := 1, order_id := 1, timestamp := 5, symbol := "X", side := Side.Sell,
    quantity := 1, fill_price := 110, commission := 2, slippage := 0 }

/-- Witness for `c10_sell_closes_open_trade`: a partial sell (1 of 2 units)
closes the open record. -/
theorem c10_sell_closes_open_trade_witness :
    ∃ pre t post, c10pf.trades = pre ++ t :: post ∧
      (∀ u ∈ pre, openFor c10fill.symbol u = false) ∧
      openFor c10fill.symbol t = true ∧
      (c10pf.process_fill c10fill).trades = pre ++ closeTrade t c10fill :: post ∧
      ((c10pf.process_fill c10fill).trades).countP (openFor c10fill.symbol) = 0 :=
  c10_sell_closes_open_trade c10pf c10fill rfl
    (by simp [c10pf, c10trade, c10fill, Portfolio.new, openFor, List.countP_cons])

/-- The per-order test of the `process_bar` scan: symbol matches the bar's and
the order's fill condition holds on the bar. -/
def scanHit (symbol : String) (bar : Bar) (p : Nat × OrderEvent) : Bool :=
  p.2.symbol == symbol && (fill_base_price p.2 bar).isSome

/-- Helper for C6: the `process_bar` loop walks the pending list in its
(iteration) order, leaves the pending set untouched, and produces one fill and
one removal entry for exactly the scan hits, in that order. -/
theorem processPending_spec (pending : List (Nat × OrderEvent)) :
    ∀ (b : Brokerage) (bar : Bar) (symbol : String) (rng : List ℚ),
    (processPending b pending bar symbol rng).1.pending_orders = b.pending_orders ∧
    ((processPending b pending bar symbol rng).2.1).map FillEvent.order_id =
      (pending.filter (scanHit symbol bar)).map (fun p => p.2.id) ∧
    (processPending b pending bar symbol rng).2.2.1 =
      (pending.filter (scanHit symbol bar)).map Prod.fst := by
  induction pending with
  | nil =>
    intro b bar symbol rng
    simp [processPending]
  | cons hd tl ih =>
    intro b bar symbol rng
    obtain ⟨oid, o⟩ := hd
    by_cases hsym : o.symbol = symbol
    · cases hfb : fill_base_price o bar with
      | some bp =>
        have h1 := ih (b.create_fill o bar bp rng).1 bar symbol
          (b.create_fill o bar bp rng).2.2
        have hhit : scanHit symbol bar (oid, o) = true := by
          simp [scanHit, hsym, hfb]
        simp only [processPending, if_pos hsym, Brokerage.try_fill_order, hfb,
          List.filter_cons, hhit, if_pos, List.map_cons]
        refine ⟨?_, ?_, ?_⟩
        · rw [h1.1]
          simp [Brokerage.create_fill]
        · rw [h1.2.1]
          simp [Brokerage.create_fill]
        · rw [h1.2.2]
      | none =>
        have h1 := ih b bar symbol rng
        have hhit : scanHit symbol bar (oid, o) = false := by
          simp [scanHit, hfb]
        simp only [processPending, if_pos hsym, Brokerage.try_fill_order, hfb,
          List.filter_cons, hhit]
        simpa using h1
    · have h1 := ih b bar symbol rng
      have hhit : scanHit symbol bar (oid, o) = false := by
        simp [scanHit, hsym]
      simp only [processPending, if_neg hsym, List.filter_cons, hhit]
      simpa using h1

/-- C6 (amended): `process_bar` walks the currently-pending orders in the
pending map's iteration order — which for the source's `std` `HashMap` is
unspecified, not the insertion order — emitting exactly one fill per matching
order whose condition holds on the bar, and removes exactly the filled orders
from the pending set (assuming the pending map's keys are distinct, as a map's
keys are). -/
theorem c6_process_bar_scan (b : Brokerage) (bar : Bar) (symbol : String)
    (rng : List ℚ) (hn : (b.pending_orders.map Prod.fst).Nodup) :
    ((b.process_bar bar symbol rng).2.1).map FillEvent.order_id =
      (b.pending_orders.filter (scanHit symbol bar)).map (fun p => p.2.id) ∧
    (b.process_bar bar symbol rng).1.pending_orders =
      b.pending_orders.filter (fun p => !(scanHit symbol bar p)) := by
  obtain ⟨hp, hf, hr⟩ := processPending_spec b.pending_orders b bar symbol rng
  have hiff : ∀ a : Nat,
      ((((processPending b b.pending_orders bar symbol rng).2.2.1)).contains a = true) ↔
      ∃ q ∈ b.pending_orders, scanHit symbol bar q = true ∧ q.1 = a := by
    intro a
    rw [hr]
    simp only [List.contains_eq_any_beq, List.any_eq_true, List.mem_map,
      List.mem_filter, beq_iff_eq]
    constructor
    · rintro ⟨x, ⟨q, ⟨hq, hqs⟩, rfl⟩, rfl⟩
      exact ⟨q, hq, hqs, rfl⟩
    · rintro ⟨q, hq, hqs, rfl⟩
      exact ⟨q.1, ⟨q, ⟨hq, hqs⟩, rfl⟩, rfl⟩
  constructor
  · simpa [Brokerage.process_bar] using hf
  · simp only [Brokerage.process_bar]
    rw [hp]
    apply List.filter_congr
    intro p hmem
    cases hsc : scanHit symbol bar p with
    | true =>
      have hc : (((processPending b b.pending_orders bar symbol rng).2.2.1)).contains p.1 = true :=
        (hiff p.1).mpr ⟨p, hmem, hsc, rfl⟩
      rw [hc]
    | false =>
      cases hc : (((processPending b b.pending_orders bar symbol rng).2.2.1)).contains p.1 with
      | false => rfl
      | true =>
        obtain ⟨q, hq, hqs, hqa⟩ := (hiff p.1).mp hc
        have : q = p := List.inj_on_of_nodup_map hn hq hmem hqa
        rw [this] at hqs
        rw [hqs] at hsc
        exact absurd hsc (by simp)

/-- A fee-free, slippage-free brokerage configuration (concrete input). -/
def c6cfg : BrokerageConfig :=
  { maker_fee := 0, taker_fee := 0, slippage_fixed := 0, slippage_pct := 0,
    realistic_fills := false, margin_requirement := 1, max_leverage := 1 }

/-- First pending buy limit order, id 1 (concrete input). -/
def c6o1 : OrderEvent := OrderEvent.limit 1 0 "X" Side.Buy 1 100

/-- Second pending buy limit order, id 2 (concrete input). -/
def c6o2 : OrderEvent := OrderEvent.limit 2 0 "X" Side.Buy 1 100

/-- A bar on which both pending orders fill (concrete input). -/
def c6bar : Bar :=
  { timestamp := 1, op := 100, high := 110, low := 90, close := 100,
    volume := 0 }

/-- The pending map iterated as `[1, 2]` (concrete input). -/
def c6bA : Brokerage :=
  { config := c6cfg, pending_orders := [(1, c6o1), (2, c6o2)], event_id := 0 }

/-- The same pending map iterated as `[2, 1]` (concrete input). -/
def c6bB : Brokerage :=
  { config := c6cfg, pending_orders := [(2, c6o2), (1, c6o1)], event_id := 0 }

/-- C6 counterexample: the scan's output is a function of the pending map's
iteration order, not of the insertion order: the same two pending orders
iterated in the two possible orders give different fill sequences (and
different fill-event ids per order), so a scan in insertion order is not what
the `HashMap`-backed code guarantees. -/
theorem c6_iteration_order_observable :
    c6bA.pending_orders.Perm c6bB.pending_orders ∧
    ((c6bA.process_bar c6bar "X" []).2.1).map FillEvent.order_id = [1, 2] ∧
    ((c6bB.process_bar c6bar "X" []).2.1).map FillEvent.order_id = [2, 1] ∧
    ((c6bA.process_bar c6bar "X" []).2.1).map FillEvent.order_id ≠
      ((c6bB.process_bar c6bar "X" []).2.1).map FillEvent.order_id := by
  refine ⟨List.Perm.swap (2, c6o2) (1, c6o1) [], ?_, ?_, ?_⟩ <;>
    norm_num [c6bA, c6bB, c6o1, c6o2, c6bar, c6cfg, OrderEvent.limit,
      Brokerage.process_bar, processPending, Brokerage.try_fill_order,
      fill_base_price, Brokerage.create_fill, Brokerage.calculate_slippage,
      Brokerage.calculate_commission]

/-- Witness for `c6_process_bar_scan` at the concrete brokerage `c6bA`. -/
theorem c6_process_bar_scan_witness :
    ((c6bA.process_bar c6bar "X" []).2.1).map FillEvent.order_id =
      (c6bA.pending_orders.filter (scanHit "X" c6bar)).map (fun p => p.2.id) ∧
    (c6bA.process_bar c6bar "X" []).1.pending_orders =
      c6bA.pending_orders.filter (fun p => !(scanHit "X" c6bar p)) :=
  c6_process_bar_scan c6bA c6bar "X" []
    (by simp [c6bA, c6o1, c6o2, OrderEvent.limit])

/-- The portfolio state after steps (a)–(b) of `process_market_data`: the
pending-order fills of the bar folded into the portfolio, before the signal is
considered. -/
def portfolioAfterPendingFills (e : BacktestEngine) (event : MarketDataEvent)
    (rng : List ℚ) : Portfolio :=
  ((e.brokerage.process_bar event.bar event.symbol rng).2.1).foldl
    Portfolio.process_fill e.portfolio

/-- Helper for C4: `execute_signal` on `+1` with a non-positive current
quantity and positive computed size appends exactly one market buy order,
sized by `calculate_order_size` from the portfolio the engine carries at that
moment, and marks it filled. -/
theorem execute_signal_buy_spec (e : BacktestEngine) (symbol : String)
    (bar : Bar) (rng : List ℚ)
    (hqty : ((lookupAssoc e.portfolio.positions symbol).map Position.quantity).getD 0 ≤ 0)
    (hpos : 0 < e.calculate_order_size bar.close) :
    ((e.execute_signal symbol 1 bar rng).1.order_manager.orders).getLast? =
      some (e.order_manager.next_id,
        { OrderEvent.market e.order_manager.next_id bar.timestamp symbol
            Side.Buy (e.calculate_order_size bar.close) with
          status := OrderStatus.Filled }) ∧
    (e.execute_signal symbol 1 bar rng).1.order_manager.orders.length =
      e.order_manager.orders.length + 1 := by
  have hgt : e.calculate_order_size bar.close > 0 := hpos
  simp only [BacktestEngine.execute_signal, if_pos rfl, if_pos hqty, if_pos hgt,
    OrderManager.create_market_order, OrderManager.submit_order,
    Brokerage.execute_market_order, OrderEvent.market]
  simp only [OrderManager.mark_filled, hasOrder, setOrderStatus,
    List.any_append, List.map_append, List.map_cons, List.map_nil]
  simp [List.getLast?_concat]

/-- C4: in `process_market_data`, when the bar's signal is `+1`, the current
position is non-positive and the computed size is positive, the single market
order the engine creates is sized from the cash of the portfolio **after** all
pending-order fills of this bar have been applied — `cash′ × 0.95 / (1 +
taker_fee + slippage_pct) / close` with `cash′` the post-fill cash — so the
pending fills are applied before the signal-driven order is sized, executed
and processed. -/
theorem c4_pending_fills_applied_before_signal (e : BacktestEngine)
    (event : MarketDataEvent) (signals : List (Int × Int)) (rng : List ℚ)
    (hsig : lookupSignal signals event.bar.timestamp = some 1)
    (hqty : ((lookupAssoc (portfolioAfterPendingFills e event rng).positions
        event.symbol).map Position.quantity).getD 0 ≤ 0)
    (hpos : 0 < (portfolioAfterPendingFills e event rng).cash * (95/100) /
        (1 + e.config.taker_fee + e.config.slippage_pct) / event.bar.close) :
    ((e.process_market_data event signals rng).1.order_manager.orders).getLast? =
      some (e.order_manager.next_id,
        { OrderEvent.market e.order_manager.next_id event.bar.timestamp
            event.symbol Side.Buy
            ((portfolioAfterPendingFills e event rng).cash * (95/100) /
              (1 + e.config.taker_fee + e.config.slippage_pct) / event.bar.close) with
          status := OrderStatus.Filled }) ∧
    (e.process_market_data event signals rng).1.order_manager.orders.length =
      e.order_manager.orders.length + 1 := by
  have h := execute_signal_buy_spec
    { e with
      current_prices := upsertAssoc e.current_prices event.symbol event.bar.close,
      current_time := some event.bar.timestamp,
      brokerage := (e.brokerage.process_bar event.bar event.symbol rng).1,
      portfolio := portfolioAfterPendingFills e event rng }
    event.symbol event.bar
    (e.brokerage.process_bar event.bar event.symbol rng).2.2
    (by simpa using hqty)
    (by simpa [BacktestEngine.calculate_order_size] using hpos)
  simp only [BacktestEngine.calculate_order_size] at h
  simp only [BacktestEngine.process_market_data, hsig, portfolioAfterPendingFills] at h ⊢
  simpa using h

/-- A fee-free engine configuration (concrete input). -/
def c4cfg : BacktestConfig :=
  { initial_capital := 1000, start_date := "2023-01-01",
    end_date := "2024-01-01", symbols := ["X"], timeframe := "1h",
    maker_fee := 0, taker_fee := 0, slippage_pct := 0 }

/-- A long position of one unit at 100 (concrete input). -/
def c4pos : Position :=
  { symbol := "X", quantity := 1, average_price := 100, market_value := 100,
    unrealized_pnl := 0, realized_pnl := 0, cost_basis := 100 }

/-- A pending sell limit at 110 for that unit (concrete input). -/
def c4sellLimit : OrderEvent := OrderEvent.limit 7 0 "X" Side.Sell 1 110

/-- An engine holding the position and the pending sell limit (concrete
input): the pending fill must land before the buy signal is sized. -/
def c4e : BacktestEngine :=
  { config := c4cfg,
    data_feed := DataFeed.new,
    portfolio := { Portfolio.new 1000 with positions := [("X", c4pos)] },
    brokerage :=
      { config := { maker_fee := 0, taker_fee := 0, slippage_fixed := 0,
                    slippage_pct := 0, realistic_fills := true,
                    margin_requirement := 1, max_leverage := 1 },
        pending_orders := [(7, c4sellLimit)], event_id := 0 },
    order_manager := OrderManager.new,
    current_prices := [], current_time := none,
    bars_processed := 0, total_bars := 0, running := false }

/-- A bar at time 5 whose high reaches the pending limit (concrete input). -/
def c4event : MarketDataEvent :=
  { id := 1, symbol := "X",
    bar := { timestamp := 5, op := 100, high := 110, low := 95, close := 100,
             volume := 0 } }

/-- Witness for `c4_pending_fills_applied_before_signal`: the pending sell at
110 fills first (cash 1000 → 1110, position 1 → 0), and only then is the `+1`
signal sized from the post-fill cash. -/
theorem c4_pending_fills_applied_before_signal_witness :
    ((c4e.process_market_data c4event [(5, 1)] [1]).1.order_manager.orders).getLast? =
      some (c4e.order_manager.next_id,
        { OrderEvent.market c4e.order_manager.next_id c4event.bar.timestamp
            c4event.symbol Side.Buy
            ((portfolioAfterPendingFills c4e c4event [1]).cash * (95/100) /
              (1 + c4e.config.taker_fee + c4e.config.slippage_pct) /
              c4event.bar.close) with
          status := OrderStatus.Filled }) ∧
    (c4e.process_market_data c4event [(5, 1)] [1]).1.order_manager.orders.length =
      c4e.order_manager.orders.length + 1 :=
  c4_pending_fills_applied_before_signal c4e c4event [(5, 1)] [1]
    (by norm_num [lookupSignal, c4event, List.find?])
    (by norm_num [portfolioAfterPendingFills, c4e, c4pos, c4sellLimit, c4event,
      c4cfg, Portfolio.new, Brokerage.process_bar, processPending,
      Brokerage.try_fill_order, fill_base_price, Brokerage.create_fill,
      Brokerage.calculate_slippage, Brokerage.calculate_commission,
      OrderEvent.limit, Portfolio.process_fill, Position.update_with_fill,
      Position.new, lookupAssoc, upsertAssoc, record_trade, updateOpenTrade,
      flatEps, List.find?])
    (by norm_num [portfolioAfterPendingFills, c4e, c4pos, c4sellLimit, c4event,
      c4cfg, Portfolio.new, Brokerage.process_bar, processPending,
      Brokerage.try_fill_order, fill_base_price, Brokerage.create_fill,
      Brokerage.calculate_slippage, Brokerage.calculate_commission,
      OrderEvent.limit, Portfolio.process_fill, Position.update_with_fill,
      Position.new, lookupAssoc, upsertAssoc, record_trade, updateOpenTrade,
      flatEps, List.find?])

/-- `List.contains` agrees with membership on `Int` lists. -/
theorem containsInt_iff (l : List Int) (a : Int) : l.contains a = true ↔ a ∈ l := by
  simp only [List.contains_eq_any_beq, List.any_eq_true, beq_iff_eq]
  constructor
  · rintro ⟨x, hx, rfl⟩
    exact hx
  · intro h
    exact ⟨a, h, rfl⟩

/-- Membership in the inner timestamp-collection fold of `collectTimestamps`. -/
theorem mem_collect_fold (bars : List Bar) (t : Int) :
    ∀ acc : List Int,
    (t ∈ bars.foldl
      (fun a b => if a.contains b.timestamp then a else a ++ [b.timestamp]) acc) ↔
    (t ∈ acc ∨ ∃ b ∈ bars, b.timestamp = t) := by
  induction bars with
  | nil => intro acc; simp
  | cons b rest ih =>
    intro acc
    rw [List.foldl_cons]
    by_cases hc : acc.contains b.timestamp = true
    · have hmem : b.timestamp ∈ acc := (containsInt_iff acc b.timestamp).mp hc
      rw [if_pos hc, ih acc]
      constructor
      · rintro (h | ⟨x, hx, rfl⟩)
        · exact Or.inl h
        · exact Or.inr ⟨x, List.mem_cons_of_mem _ hx, rfl⟩
      · rintro (h | ⟨x, hx, rfl⟩)
        · exact Or.inl h
        · rcases List.mem_cons.mp hx with h' | h'
          · exact Or.inl (h' ▸ hmem)
          · exact Or.inr ⟨x, h', rfl⟩
    · rw [if_neg hc, ih (acc ++ [b.timestamp])]
      simp only [List.mem_append, List.mem_singleton]
      constructor
      · rintro ((h | h) | ⟨x, hx, rfl⟩)
        · exact Or.inl h
        · exact Or.inr ⟨b, List.mem_cons_self b rest, h.symm⟩
        · exact Or.inr ⟨x, List.mem_cons_of_mem _ hx, rfl⟩
      · rintro (h | ⟨x, hx, rfl⟩)
        · exact Or.inl (Or.inl h)
        · rcases List.mem_cons.mp hx with h' | h'
          · exact Or.inl (Or.inr (h' ▸ rfl))
          · exact Or.inr ⟨x, h', rfl⟩

/-- Membership in `collectTimestamps`: exactly the timestamps of loaded bars. -/
theorem mem_collectTimestamps (data : List (String × List Bar)) (t : Int) :
    t ∈ collectTimestamps data ↔ ∃ p ∈ data, ∃ b ∈ p.2, b.timestamp = t := by
  have main : ∀ acc : List Int,
      (t ∈ data.foldl
        (fun acc p => p.2.foldl
          (fun a b => if a.contains b.timestamp then a else a ++ [b.timestamp]) acc)
        acc) ↔
      (t ∈ acc ∨ ∃ p ∈ data, ∃ b ∈ p.2, b.timestamp = t) := by
    induction data with
    | nil => intro acc; simp
    | cons hd tl ih =>
      intro acc
      rw [List.foldl_cons, ih, mem_collect_fold]
      constructor
      · rintro ((h | ⟨b, hb, rfl⟩) | ⟨p, hp, b, hb, rfl⟩)
        · exact Or.inl h
        · exact Or.inr ⟨hd, List.mem_cons_self hd tl, b, hb, rfl⟩
        · exact Or.inr ⟨p, List.mem_cons_of_mem _ hp, b, hb, rfl⟩
      · rintro (h | ⟨p, hp, b, hb, rfl⟩)
        · exact Or.inl (Or.inl h)
        · rcases List.mem_cons.mp hp with h' | h'
          · exact Or.inl (Or.inr ⟨b, h' ▸ hb, rfl⟩)
          · exact Or.inr ⟨p, h', b, hb, rfl⟩
  have := main []
  simpa [collectTimestamps] using this

/-- The collection fold preserves `Nodup` (it pushes only absent timestamps). -/
theorem collect_fold_nodup (bars : List Bar) :
    ∀ acc : List Int, acc.Nodup →
    (bars.foldl
      (fun a b => if a.contains b.timestamp then a else a ++ [b.timestamp]) acc).Nodup := by
  induction bars with
  | nil => intro acc h; simpa using h
  | cons b rest ih =>
    intro acc h
    rw [List.foldl_cons]
    by_cases hc : acc.contains b.timestamp = true
    · rw [if_pos hc]
      exact ih acc h
    · rw [if_neg hc]
      apply ih
      have hni : b.timestamp ∉ acc := fun hmem => hc ((containsInt_iff _ _).mpr hmem)
      simp [List.nodup_append, h, hni]

/-- `collectTimestamps` has no duplicates. -/
theorem collectTimestamps_nodup (data : List (String × List Bar)) :
    (collectTimestamps data).Nodup := by
  have main : ∀ acc : List Int, acc.Nodup →
      (data.foldl
        (fun acc p => p.2.foldl
          (fun a b => if a.contains b.timestamp then a else a ++ [b.timestamp]) acc)
        acc).Nodup := by
    induction data with
    | nil => intro acc h; simpa using h
    | cons hd tl ih =>
      intro acc h
      rw [List.foldl_cons]
      exact ih _ (collect_fold_nodup hd.2 acc h)
  simpa [collectTimestamps] using main [] List.nodup_nil

/-- Every pair emitted by `emitAt` carries the requested timestamp. -/
theorem emitAt_timestamp (data : List (String × List Bar)) (ts : Int) :
    ∀ x ∈ emitAt data ts, x.2.timestamp = ts := by
  intro x hx
  obtain ⟨p, _hp, hfx⟩ := List.mem_filterMap.mp hx
  cases hf : p.2.find? (fun b => b.timestamp == ts) with
  | none => rw [hf] at hfx; simp at hfx
  | some b =>
    rw [hf] at hfx
    simp at hfx
    have hb := List.find?_some hf
    rw [← hfx]
    exact beq_iff_eq.mp hb

/-- Pairwise timestamp monotonicity of a flat map over a sorted timestamp
list, when each group's elements carry the group's timestamp. -/
theorem pairwise_key_flatMap {β : Type} (key : β → Int) (f : Int → List β)
    (hf : ∀ ts x, x ∈ f ts → key x = ts) :
    ∀ l : List Int, List.Sorted (fun a b => a ≤ b) l →
      List.Pairwise (fun x y => key x ≤ key y) (l.flatMap f) := by
  intro l
  induction l with
  | nil => intro _; simp
  | cons t rest ih =>
    intro hs
    rw [List.flatMap_cons]
    apply List.pairwise_append.mpr
    refine ⟨?_, ih (List.sorted_cons.mp hs).2, ?_⟩
    · apply List.pairwise_of_forall_mem_list
      intro a ha b hb
      rw [hf t a ha, hf t b hb]
    · intro x hx y hy
      obtain ⟨ts1, hts1, hy1⟩ := List.mem_flatMap.mp hy
      rw [hf t x hx, hf ts1 y hy1]
      exact (List.sorted_cons.mp hs).1 ts1 hts1

/-- Counting over a flat map of groups when only one group can contribute. -/
theorem countP_flatMap_single {β : Type} (f : Int → List β) (p : β → Bool)
    (ts : Int) :
    ∀ l : List Int, l.Nodup →
    (∀ t1 ∈ l, t1 ≠ ts → (f t1).countP p = 0) →
    (l.flatMap f).countP p = if ts ∈ l then (f ts).countP p else 0 := by
  intro l
  induction l with
  | nil => intro _ _; simp
  | cons a rest ih =>
    intro hnd hz
    have hrest := ih (List.nodup_cons.mp hnd).2
      (fun t1 ht1 => hz t1 (List.mem_cons_of_mem _ ht1))
    rw [List.flatMap_cons, List.countP_append, hrest]
    by_cases ha : a = ts
    · subst ha
      have hnin : a ∉ rest := (List.nodup_cons.mp hnd).1
      rw [if_neg hnin, if_pos (List.mem_cons_self a rest)]
      omega
    · rw [hz a (List.mem_cons_self a rest) ha]
      have : (ts ∈ a :: rest) ↔ ts ∈ rest := by
        rw [List.mem_cons]
        constructor
        · rintro (h | h)
          · exact absurd h.symm ha
          · exact h
        · exact Or.inr
      by_cases hm : ts ∈ rest
      · rw [if_pos hm, if_pos (this.mpr hm)]
        omega
      · rw [if_neg hm, if_neg (fun hh => hm (this.mp hh))]

/-- Unfolding of `emitAt` on a cons cell. -/
theorem emitAt_cons (hd : String × List Bar) (tl : List (String × List Bar))
    (ts : Int) :
    emitAt (hd :: tl) ts =
      match hd.2.find? (fun b => b.timestamp == ts) with
      | none => emitAt tl ts
      | some b => (hd.1, b) :: emitAt tl ts := by
  simp only [emitAt, List.filterMap_cons]
  cases hd.2.find? (fun b => b.timestamp == ts) <;> simp

/-- `emitAt` emits no pair for a symbol that is not a key of the data map. -/
theorem countP_emitAt_notkey (sym : String) (ts ts1 : Int) :
    ∀ data : List (String × List Bar), sym ∉ data.map Prod.fst →
    (emitAt data ts1).countP
      (fun x => x.1 == sym && x.2.timestamp == ts) = 0 := by
  intro data
  induction data with
  | nil => intro _; simp [emitAt]
  | cons hd tl ih =>
    intro h
    have hs : hd.1 ≠ sym := fun he => h (by simp [he.symm])
    have htl : sym ∉ tl.map Prod.fst := fun hm => h (by simp [hm])
    rw [emitAt_cons]
    cases hf : hd.2.find? (fun b => b.timestamp == ts1) with
    | none => exact ih htl
    | some b =>
      rw [List.countP_cons_of_neg]
      · exact ih htl
      · simp [hs]

/-- With distinct keys, the group at `ts` contains exactly one pair for `sym`
iff `sym`'s bars contain a bar at `ts`. -/
theorem countP_emitAt (sym : String) (bars : List Bar) (ts : Int) :
    ∀ data : List (String × List Bar), (data.map Prod.fst).Nodup →
    (sym, bars) ∈ data →
    (emitAt data ts).countP
      (fun x => x.1 == sym && x.2.timestamp == ts) =
      if bars.any (fun b => b.timestamp == ts) then 1 else 0 := by
  intro data
  induction data with
  | nil => intro _ h; simp at h
  | cons hd tl ih =>
    intro hnd hmem
    rw [List.map_cons, List.nodup_cons] at hnd
    have hnd1 : hd.1 ∉ tl.map Prod.fst := hnd.1
    have hndtl : (tl.map Prod.fst).Nodup := hnd.2
    rcases List.mem_cons.mp hmem with heq | hmem1
    · have h1 : hd.1 = sym := by rw [← heq]
      have h2 : hd.2 = bars := by rw [← heq]
      have hnk : sym ∉ tl.map Prod.fst := h1 ▸ hnd1
      rw [emitAt_cons]
      cases hf : hd.2.find? (fun b => b.timestamp == ts) with
      | none =>
        have hany : bars.any (fun b => b.timestamp == ts) = false := by
          rw [← h2, List.any_eq_false]
          exact fun b hb => List.find?_eq_none.mp hf b hb
        rw [hany, if_neg (by simp)]
        exact countP_emitAt_notkey sym ts ts tl hnk
      | some b =>
        have hpb := List.find?_some hf
        have hmb := List.mem_of_find?_eq_some hf
        have hany : bars.any (fun b => b.timestamp == ts) = true := by
          rw [← h2, List.any_eq_true]
          exact ⟨b, hmb, hpb⟩
        rw [hany, if_pos rfl]
        rw [List.countP_cons_of_pos]
        · rw [countP_emitAt_notkey sym ts ts tl hnk]
        · simp only at hpb
          simp [h1, hpb]
    · have hs : hd.1 ≠ sym := by
        intro he
        apply hnd1
        rw [he]
        exact List.mem_map.mpr ⟨(sym, bars), hmem1, rfl⟩
      rw [emitAt_cons]
      cases hf : hd.2.find? (fun b => b.timestamp == ts) with
      | none => exact ih hndtl hmem1
      | some b =>
        rw [List.countP_cons_of_neg]
        · exact ih hndtl hmem1
        · simp [hs]

/-- Counting through the id-assigning `enum.map` step of
`get_aligned_bars`. -/
theorem countP_enum_map {α β : Type} (l : List α) (g : Nat × α → β)
    (p : β → Bool) (q : α → Bool) (h : ∀ i a, p (g (i, a)) = q a) :
    ((l.enum.map g).countP p) = l.countP q := by
  rw [List.countP_map]
  conv_rhs => rw [← List.enum_map_snd l]
  rw [List.countP_map]
  apply List.countP_congr
  intro x _
  obtain ⟨i, a⟩ := x
  simp only [Function.comp_apply]
  rw [h i a]

/-- Pairwise transfer through the id-assigning `enum.map` step. -/
theorem pairwise_enum_map {α β : Type} (l : List α) (g : Nat × α → β)
    (R : β → β → Prop) (S : α → α → Prop)
    (h : ∀ i a j b, S a b → R (g (i, a)) (g (j, b)))
    (hp : List.Pairwise S l) : List.Pairwise R (l.enum.map g) := by
  rw [List.pairwise_map]
  have h2 : List.Pairwise (fun x y : Nat × α => S x.2 y.2) l.enum := by
    rw [← List.enum_map_snd l] at hp
    exact List.pairwise_map.mp hp
  apply List.Pairwise.imp ?_ h2
  intro a b hs
  obtain ⟨i, x⟩ := a
  obtain ⟨j, y⟩ := b
  exact h i x j y hs

/-- C7 (amended): `get_aligned_bars` returns events whose timestamps are
ascending, and — with the data map's keys distinct, as a map's keys are — for
every loaded symbol and every timestamp it emits exactly one event for that
symbol iff the symbol has a bar at that timestamp.  Within one timestamp the
per-symbol order is the data hash map's unspecified iteration order, not the
lexicographic symbol order. -/
theorem c7_aligned_stream_spec (d : DataFeed)
    (hk : (d.data.map Prod.fst).Nodup) :
    List.Pairwise (fun e f => e.bar.timestamp ≤ f.bar.timestamp)
      (d.get_aligned_bars).2 ∧
    (∀ sym bars, (sym, bars) ∈ d.data → ∀ ts : Int,
      ((d.get_aligned_bars).2.countP
          (fun e => e.symbol == sym && e.bar.timestamp == ts)) =
        if bars.any (fun b => b.timestamp == ts) then 1 else 0) := by
  have hsorted : List.Sorted (fun a b : Int => a ≤ b)
      (List.insertionSort (fun a b => a ≤ b) (collectTimestamps d.data)) :=
    List.sorted_insertionSort _ _
  have hpw : List.Pairwise
      (fun x y : String × Bar => x.2.timestamp ≤ y.2.timestamp)
      ((List.insertionSort (fun a b => a ≤ b)
          (collectTimestamps d.data)).flatMap (emitAt d.data)) :=
    pairwise_key_flatMap (fun x => x.2.timestamp) (emitAt d.data)
      (emitAt_timestamp d.data) _ hsorted
  constructor
  · simp only [DataFeed.get_aligned_bars]
    exact pairwise_enum_map _ _ _ _ (fun _ _ _ _ hs => hs) hpw
  · intro sym bars hmem ts
    simp only [DataFeed.get_aligned_bars]
    rw [countP_enum_map _ _ _
      (fun x : String × Bar => x.1 == sym && x.2.timestamp == ts)
      (fun _ _ => rfl)]
    have hnodupTs : (List.insertionSort (fun a b : Int => a ≤ b)
        (collectTimestamps d.data)).Nodup :=
      (List.perm_insertionSort _ _).nodup_iff.mpr (collectTimestamps_nodup d.data)
    have hzero : ∀ t1 ∈ List.insertionSort (fun a b : Int => a ≤ b)
        (collectTimestamps d.data), t1 ≠ ts →
        (emitAt d.data t1).countP
          (fun x => x.1 == sym && x.2.timestamp == ts) = 0 := by
      intro t1 _ht1 hne
      rw [List.countP_eq_zero]
      intro x hx hq
      have hxt := emitAt_timestamp d.data t1 x hx
      simp only [Bool.and_eq_true, beq_iff_eq] at hq
      exact hne (by rw [← hxt]; exact hq.2)
    rw [countP_flatMap_single (emitAt d.data)
      (fun x => x.1 == sym && x.2.timestamp == ts) ts _ hnodupTs hzero]
    rw [countP_emitAt sym bars ts d.data hk hmem]
    cases hany : bars.any (fun b => b.timestamp == ts) with
    | true =>
      have hmemTs : ts ∈ List.insertionSort (fun a b : Int => a ≤ b)
          (collectTimestamps d.data) := by
        rw [List.mem_insertionSort]
        rw [mem_collectTimestamps]
        obtain ⟨b, hb, hbts⟩ := List.any_eq_true.mp hany
        exact ⟨(sym, bars), hmem, b, hb, beq_iff_eq.mp hbts⟩
      rw [if_pos hmemTs]
    | false => simp

/-- Lexicographic strict order on character lists (spec-side definition,
written from the spec's words "symbol lexicographically" to state the claimed
ordering). -/
def lexLtB : List Char → List Char → Bool
  | [], [] => false
  | [], _ :: _ => true
  | _ :: _, [] => false
  | a :: s, b :: t => if a < b then true else if b < a then false else lexLtB s t

/-- Non-strict lexicographic symbol order (spec-side definition). -/
def symbolLexLe (s t : String) : Bool := lexLtB s.data t.data || s == t

/-- The event order claimed by the spec: `(timestamp asc, symbol
lexicographically)` (spec-side definition, for comparison with the code). -/
def alignedLe (e f : MarketDataEvent) : Bool :=
  decide (e.bar.timestamp < f.bar.timestamp) ||
    ((e.bar.timestamp == f.bar.timestamp) && symbolLexLe e.symbol f.symbol)

/-- A trivial bar at timestamp 0 (concrete input). -/
def c7bar : Bar :=
  { timestamp := 0, op := 1, high := 1, low := 1, close := 1, volume := 0 }

/-- A feed whose data map iterates symbol "B" before "A" (concrete input; the
source's `HashMap` iteration order is unspecified, so this order is as
possible as the other). -/
def c7feed : DataFeed :=
  { data := [("B", [c7bar]), ("A", [c7bar])],
    indices := [("B", 0), ("A", 0)], event_id := 0, align_timestamps := true }

/-- C7 counterexample: with the data map iterated as `["B", "A"]`, the two
events of timestamp 0 come out as `B` then `A` — not sorted by `(timestamp,
symbol lexicographically)`; the inner loop of `get_aligned_bars` follows the
hash map's iteration order, which carries no lexicographic guarantee. -/
theorem c7_not_symbol_sorted :
    ¬ List.Pairwise (fun e f => alignedLe e f = true)
      (c7feed.get_aligned_bars).2 := by
  intro h
  have hev : (c7feed.get_aligned_bars).2 =
      [{ id := 1, symbol := "B", bar := c7bar },
       { id := 2, symbol := "A", bar := c7bar }] := rfl
  rw [hev] at h
  have h2 := (List.pairwise_cons.mp h).1 _ (List.mem_cons_self _ _)
  exact absurd h2 (by decide)

/-- Witness for `c7_aligned_stream_spec` at the concrete two-symbol feed. -/
theorem c7_aligned_stream_spec_witness :
    List.Pairwise (fun e f => e.bar.timestamp ≤ f.bar.timestamp)
      (c7feed.get_aligned_bars).2 ∧
    (∀ sym bars, (sym, bars) ∈ c7feed.data → ∀ ts : Int,
      ((c7feed.get_aligned_bars).2.countP
          (fun e => e.symbol == sym && e.bar.timestamp == ts)) =
        if bars.any (fun b => b.timestamp == ts) then 1 else 0) :=
  c7_aligned_stream_spec c7feed (by decide)

end Backtest
